import Mathlib

/-!
Verification of the chunking and retrieval pipeline of
`src/backend/server.py` (a Flask RAG server).

The Python source is shallowly embedded below. Document text is modelled as
`List Char` (so Python slicing becomes `drop`/`take`), chunk-key strings and
filenames as `String`, and machine integers as `Nat` (no overflow is
reachable: all counters are small). The external collaborators are modelled
by the contracts the spec gives them:
  - the embedder and the cosine-distance computation of the Chroma
    collection are abstracted into a ranking function
    `rank : List Char -> IndexEntry -> Rat` (query text to entry distance);
  - `collection.add` is insert-or-replace by id, `collection.delete`
    removes a set of ids, `collection.query` returns stored entries in
    ascending distance order, at most `n_results` of them.
Embedder and index-query invocations are counted explicitly in the results
of `search_documents` and `chat`, so that call-counting claims can be
stated. Fields of the Python dictionaries that no claim mentions
(timestamps, word counts, previews) are omitted from the records.
-/

/-- A chunk as produced by `chunk_text` (server.py lines 56-75): the emitted
slice together with its `start_pos`/`end_pos` offsets into the source text. -/
structure ChunkRec where
  text : List Char
  start_pos : Nat
  end_pos : Nat
deriving DecidableEq, Repr

/-- Models the Python truthiness test `chunk.strip()` on line 66: true iff
the slice holds at least one non-whitespace character. -/
def hasContent (chunk : List Char) : Bool :=
  chunk.any (fun c => !c.isWhitespace)

/-- The `while start < text_length` loop of `chunk_text` (lines 62-73), as a
function of the cursor `start`, with an explicit iteration budget `fuel` so
that the recursion is structural: `none` means the budget ran out before the
loop exited. Each pass slices `text[start : start+chunk_size]`, emits it when
it has content (with `end_pos = min (start+chunk_size) text.length`), and
advances the cursor by `chunk_size - overlap`. -/
def chunkFromFuel : Nat → List Char → Nat → Nat → Nat → Option (List ChunkRec)
  | 0, _, _, _, _ => none
  | fuel + 1, text, csize, overlap, start =>
    if start < text.length then
      (chunkFromFuel fuel text csize overlap (start + (csize - overlap))).map
        (fun rest =>
          if hasContent ((text.drop start).take csize) then
            ⟨(text.drop start).take csize, start, min (start + csize) text.length⟩ :: rest
          else rest)
    else some []

/-- `chunk_text(text, chunk_size, overlap)` (server.py lines 56-75). Under
the documented precondition `overlap < chunk_size` the loop exits within
`text.length + 1` iterations (`chunkFromFuel_total` below), so that budget
computes the loop's value; the `none` fallback is unreachable then. When the
precondition is violated the Python loop diverges, and this embedding
returns `[]`. -/
def chunk_text (text : List Char) (csize overlap : Nat) : List ChunkRec :=
  match chunkFromFuel (text.length + 1) text csize overlap 0 with
  | some cs => cs
  | none => []

/-- Size of the overlap of the two chunks' offset ranges, read as half-open
intervals over the source text. -/
def rangeOverlap (a b : ChunkRec) : Nat :=
  min a.end_pos b.end_pos - max a.start_pos b.start_pos

/-- The consecutive-overlap property exactly as claim C5 states it: any two
consecutive chunks overlap by exactly the configured overlap amount, except
possibly the pair ending at the final chunk. -/
def consecutiveOverlapClaim (overlap : Nat) (cs : List ChunkRec) : Prop :=
  ∀ i : Fin cs.length, ∀ j : Fin cs.length,
    (j : Nat) = (i : Nat) + 1 → (j : Nat) + 1 < cs.length →
      rangeOverlap (cs.get i) (cs.get j) = overlap

instance (overlap : Nat) (cs : List ChunkRec) :
    Decidable (consecutiveOverlapClaim overlap cs) := by
  unfold consecutiveOverlapClaim
  infer_instance

/-- With `overlap < csize`, a budget exceeding the remaining text length is
enough: the budgeted loop exits. -/
lemma chunkFromFuel_total (text : List Char) (csize overlap : Nat)
    (hO : overlap < csize) :
    ∀ (fuel s : Nat), text.length - s < fuel →
      ∃ cs, chunkFromFuel fuel text csize overlap s = some cs := by
  intro fuel
  induction fuel with
  | zero => intro s hs; omega
  | succ f ih =>
    intro s hs
    by_cases hsl : s < text.length
    · obtain ⟨cs, hcs⟩ := ih (s + (csize - overlap)) (by omega)
      rw [chunkFromFuel, if_pos hsl, hcs]
      exact ⟨_, rfl⟩
    · rw [chunkFromFuel, if_neg hsl]
      exact ⟨[], rfl⟩

/-- Every chunk in a finished run of the loop from cursor position `s`
starts at or after `s`, starts strictly inside the text, ends at
`min (start_pos + csize) text.length`, and carries exactly the slice
`text[start_pos : start_pos+csize]`. -/
lemma chunkFromFuel_mem_spec (text : List Char) (csize overlap : Nat) :
    ∀ (fuel s : Nat) (cs : List ChunkRec),
      chunkFromFuel fuel text csize overlap s = some cs → ∀ ch ∈ cs,
        s ≤ ch.start_pos ∧ ch.start_pos < text.length ∧
        ch.end_pos = min (ch.start_pos + csize) text.length ∧
        ch.text = (text.drop ch.start_pos).take csize := by
  intro fuel
  induction fuel with
  | zero => intro s cs hcs; simp [chunkFromFuel] at hcs
  | succ f ih =>
    intro s cs hcs ch hch
    rw [chunkFromFuel] at hcs
    by_cases hsl : s < text.length
    · rw [if_pos hsl] at hcs
      cases hrec : chunkFromFuel f text csize overlap (s + (csize - overlap)) with
      | none => rw [hrec] at hcs; exact Option.noConfusion hcs
      | some rest =>
        rw [hrec] at hcs
        simp only [Option.map_some', Option.some.injEq] at hcs
        subst hcs
        by_cases hc : hasContent ((text.drop s).take csize) = true
        · rw [if_pos hc] at hch
          rcases List.mem_cons.mp hch with hEq | hTail
          · subst hEq
            exact ⟨Nat.le_refl s, hsl, rfl, rfl⟩
          · have := ih (s + (csize - overlap)) rest hrec ch hTail
            exact ⟨by omega, this.2.1, this.2.2.1, this.2.2.2⟩
        · rw [if_neg hc] at hch
          have := ih (s + (csize - overlap)) rest hrec ch hch
          exact ⟨by omega, this.2.1, this.2.2.1, this.2.2.2⟩
    · rw [if_neg hsl] at hcs
      simp only [Option.some.injEq] at hcs
      subst hcs
      exact absurd hch (List.not_mem_nil ch)

/-- Specialisation of `chunkFromFuel_mem_spec` to `chunk_text`. -/
lemma chunk_text_mem_spec (text : List Char) (csize overlap : Nat)
    (ch : ChunkRec) (hch : ch ∈ chunk_text text csize overlap) :
    ch.start_pos < text.length ∧
    ch.end_pos = min (ch.start_pos + csize) text.length ∧
    ch.text = (text.drop ch.start_pos).take csize := by
  unfold chunk_text at hch
  cases hrun : chunkFromFuel (text.length + 1) text csize overlap 0 with
  | none => rw [hrun] at hch; exact absurd hch (List.not_mem_nil ch)
  | some cs =>
    rw [hrun] at hch
    have := chunkFromFuel_mem_spec text csize overlap (text.length + 1) 0 cs hrun ch hch
    exact ⟨this.2.1, this.2.2.1, this.2.2.2⟩

/-- Claim C4: for every text `T`, `chunk_size C > 0` and overlap `O` with
`0 ≤ O < C`, every chunk emitted by `chunk_text T C O` has offsets with
`0 ≤ start_pos < end_pos ≤ T.length`, and the slice
`T[start_pos : end_pos]` equals the chunk's emitted text exactly. -/
theorem chunk_text_offsets_sound (text : List Char) (csize overlap : Nat)
    (hC : 0 < csize) (_hO : overlap < csize)
    (ch : ChunkRec) (hch : ch ∈ chunk_text text csize overlap) :
    ch.start_pos < ch.end_pos ∧ ch.end_pos ≤ text.length ∧
    (text.drop ch.start_pos).take (ch.end_pos - ch.start_pos) = ch.text := by
  obtain ⟨hlt, hend, htext⟩ := chunk_text_mem_spec text csize overlap ch hch
  refine ⟨by omega, by omega, ?_⟩
  rw [htext]
  by_cases hfit : ch.start_pos + csize ≤ text.length
  · have : ch.end_pos - ch.start_pos = csize := by omega
    rw [this]
  · have hlen : (text.drop ch.start_pos).length = text.length - ch.start_pos := by
      simp
    have h1 : (text.drop ch.start_pos).take (ch.end_pos - ch.start_pos)
        = text.drop ch.start_pos := by
      apply List.take_of_length_le
      omega
    have h2 : (text.drop ch.start_pos).take csize = text.drop ch.start_pos := by
      apply List.take_of_length_le
      omega
    rw [h1, h2]

/-- Witness for C4 at `text = "ab"`, `chunk_size = 1`, `overlap = 0`,
chunk `⟨"a", 0, 1⟩`. -/
theorem chunk_text_offsets_sound_witness :
    (0 < 1 ∧ 0 < 1 ∧
      (⟨"a".data, 0, 1⟩ : ChunkRec) ∈ chunk_text "ab".data 1 0) ∧
    ((⟨"a".data, 0, 1⟩ : ChunkRec).start_pos < (⟨"a".data, 0, 1⟩ : ChunkRec).end_pos ∧
      (⟨"a".data, 0, 1⟩ : ChunkRec).end_pos ≤ "ab".data.length ∧
      ("ab".data.drop (⟨"a".data, 0, 1⟩ : ChunkRec).start_pos).take
        ((⟨"a".data, 0, 1⟩ : ChunkRec).end_pos - (⟨"a".data, 0, 1⟩ : ChunkRec).start_pos)
        = (⟨"a".data, 0, 1⟩ : ChunkRec).text) :=
  ⟨⟨by decide, by decide, by decide⟩,
    chunk_text_offsets_sound "ab".data 1 0 (by decide) (by decide)
      ⟨"a".data, 0, 1⟩ (by decide)⟩

/-- Claim C5 counterexample: on `"abcde"` with `chunk_size = 4`,
`overlap = 3`, the pair of consecutive chunks `(2,5)` and `(3,5)` overlaps by
`2`, not `3`, although the later chunk is not the final one (the final chunk
is `(4,5)`). So the claimed property fails as stated. -/
theorem chunk_overlap_claim_false :
    ¬ consecutiveOverlapClaim 3 (chunk_text "abcde".data 4 3) := by
  decide

/-- Claim C5 amended: for consecutive emitted chunks `a`, `b`, whenever `b`
starts at the very next cursor position (`b.start_pos = a.start_pos + (C - O)`,
i.e. no whitespace-only slice was dropped between them) and `a` is not
truncated by the end of the text (`a.start_pos + C ≤ T.length`), their offset
ranges overlap by exactly `O`. Pairs whose earlier chunk is truncated overlap
by less, and dropped whitespace-only slices can leave gaps. -/
theorem chunk_text_overlap_amended (text : List Char) (csize overlap : Nat)
    (hO : overlap < csize) :
    List.Chain'
      (fun a b => b.start_pos = a.start_pos + (csize - overlap) →
        a.start_pos + csize ≤ text.length → rangeOverlap a b = overlap)
      (chunk_text text csize overlap) := by
  apply List.Pairwise.chain'
  apply List.pairwise_of_forall_mem_list
  intro a ha b hb hstep hfit
  obtain ⟨haLt, haEnd, -⟩ := chunk_text_mem_spec text csize overlap a ha
  obtain ⟨hbLt, hbEnd, -⟩ := chunk_text_mem_spec text csize overlap b hb
  unfold rangeOverlap
  omega

/-- Witness for the amended C5 at `text = "ab"`, `chunk_size = 2`,
`overlap = 1`. -/
theorem chunk_text_overlap_amended_witness :
    (1 : Nat) < 2 ∧
    List.Chain'
      (fun a b => b.start_pos = a.start_pos + (2 - 1) →
        a.start_pos + 2 ≤ "ab".data.length → rangeOverlap a b = 1)
      (chunk_text "ab".data 2 1) :=
  ⟨by decide, chunk_text_overlap_amended "ab".data 2 1 (by decide)⟩

/-- Claim C6: whenever `0 < chunk_size` and `0 ≤ overlap < chunk_size`, the
`chunk_text` loop terminates (a finite step budget suffices for the raw loop
to exit, producing `chunk_text`'s value); and chunking `"abcdefghij"` with
`chunk_size = 4`, `overlap = 1` yields exactly the chunks
`(0,4) "abcd"`, `(3,7) "defg"`, `(6,10) "ghij"`, `(9,10) "j"`. -/
theorem chunk_text_terminates_and_scenarioA :
    (∀ (text : List Char) (csize overlap : Nat), 0 < csize → overlap < csize →
      ∃ fuel, chunkFromFuel fuel text csize overlap 0 = some (chunk_text text csize overlap)) ∧
    chunk_text "abcdefghij".data 4 1 =
      [⟨"abcd".data, 0, 4⟩, ⟨"defg".data, 3, 7⟩, ⟨"ghij".data, 6, 10⟩, ⟨"j".data, 9, 10⟩] := by
  constructor
  · intro text csize overlap _ hO
    obtain ⟨cs, hcs⟩ :=
      chunkFromFuel_total text csize overlap hO (text.length + 1) 0 (by omega)
    refine ⟨text.length + 1, ?_⟩
    unfold chunk_text
    rw [hcs]
  · decide

/-- Witness for C6's termination clause at `text = "ab"`, `chunk_size = 2`,
`overlap = 1`. -/
theorem chunk_text_terminates_witness :
    (0 < 2 ∧ 1 < 2) ∧
    (∃ fuel, chunkFromFuel fuel "ab".data 2 1 0 = some (chunk_text "ab".data 2 1)) :=
  ⟨⟨by decide, by decide⟩,
    chunk_text_terminates_and_scenarioA.1 "ab".data 2 1 (by decide) (by decide)⟩

/-- Metadata stored with each chunk in the Chroma collection
(server.py lines 177-183). -/
structure EntryMeta where
  doc_id : Nat
  filename : String
  chunk_index : Nat
  start_pos : Nat
  end_pos : Nat
deriving DecidableEq, Repr

/-- One entry of the Chroma collection: chunk id, chunk text, metadata
(server.py lines 173-184). The embedding vector itself is abstracted away;
distances are produced by the ranking function passed to queries. -/
structure IndexEntry where
  key : String
  text : List Char
  md : EntryMeta
deriving DecidableEq, Repr

/-- The part of a `documents_db` record (server.py lines 191-202) that the
claims mention. -/
structure DocMeta where
  id : Nat
  filename : String
  file_path : String
  chunk_count : Nat
deriving DecidableEq, Repr

/-- The mutable server state: the in-memory `documents_db` list, the Chroma
`collection`, and the upload files present on disk. -/
structure ServerState where
  documents_db : List DocMeta
  collection : List IndexEntry
  files : List String
deriving DecidableEq, Repr

/-- The composite chunk id `f"doc_{doc_id}_chunk_{i}"`
(server.py lines 170 and 247). -/
def chunkKey (docId i : Nat) : String :=
  "doc_" ++ toString docId ++ "_chunk_" ++ toString i

/-- `collection.add` for a single entry: insert, or replace the entry holding
the same id (the spec's VectorIndex contract, section 4.3: inserts or
replaces by id). -/
def upsertEntry (idx : List IndexEntry) (e : IndexEntry) : List IndexEntry :=
  if idx.any (fun x => x.key == e.key) then
    idx.map (fun x => if x.key == e.key then e else x)
  else idx ++ [e]

inductive UploadOutcome where
  | ok (docId : Nat)
  | emptyContent
deriving DecidableEq, Repr

/-- `upload_document` (server.py lines 122-217), starting after file-type
validation and text extraction, which no claim mentions: chunk the extracted
text with the configured `CHUNK_SIZE = 1000` and `CHUNK_OVERLAP = 200`;
reject the document when no chunk is produced (the saved file is removed
again, so `files` is unchanged); otherwise assign
`doc_id = len(documents_db) + 1` (line 161), add one collection entry per
chunk, register the document, and keep the saved file. -/
def upload_document (st : ServerState) (text : List Char)
    (filename file_path : String) : UploadOutcome × ServerState :=
  let chunks := chunk_text text 1000 200
  if chunks.isEmpty then (.emptyContent, st)
  else
    let doc_id := st.documents_db.length + 1
    let coll := chunks.enum.foldl
      (fun idx p =>
        upsertEntry idx
          ⟨chunkKey doc_id p.1, p.2.text,
            ⟨doc_id, filename, p.1, p.2.start_pos, p.2.end_pos⟩⟩)
      st.collection
    (.ok doc_id,
      ⟨st.documents_db ++ [⟨doc_id, filename, file_path, chunks.length⟩],
        coll, st.files ++ [file_path]⟩)

inductive DeleteOutcome where
  | ok
  | notFound
deriving DecidableEq, Repr

/-- `delete_document` (server.py lines 233-264). The first catalog record
with the requested id is looked up (`next(...)`, line 240); if none exists
the call fails with not-found and changes nothing. Otherwise the chunk ids
`doc_{doc_id}_chunk_{0..chunk_count-1}` are recomputed (line 247) and handed
to `collection.delete`, which sits in a `try/except` that only prints on
failure (lines 248-251): `indexDeleteOk` says whether that external delete
succeeded; either way execution continues, the file is removed from disk if
present, every catalog record with the id is dropped (line 258), and the
route returns success. -/
def delete_document (st : ServerState) (doc_id : Nat) (indexDeleteOk : Bool) :
    DeleteOutcome × ServerState :=
  match st.documents_db.find? (fun d => d.id == doc_id) with
  | none => (.notFound, st)
  | some doc =>
    let chunk_ids := (List.range doc.chunk_count).map (chunkKey doc_id)
    let coll := if indexDeleteOk
      then st.collection.filter (fun e => !(chunk_ids.contains e.key))
      else st.collection
    let fs := if st.files.contains doc.file_path
      then st.files.erase doc.file_path
      else st.files
    (.ok, ⟨st.documents_db.filter (fun d => !(d.id == doc_id)), coll, fs⟩)

/-- One retrieval result: chunk text, chunk metadata, cosine distance
(server.py lines 290-294). -/
structure RetrievalResult where
  text : List Char
  metadata : EntryMeta
  distance : Rat
deriving DecidableEq, Repr

/-- Insert an entry into a list kept in ascending `rank` order. -/
def insertByRank (rank : IndexEntry → Rat) (e : IndexEntry) :
    List IndexEntry → List IndexEntry
  | [] => [e]
  | x :: xs =>
    if rank e ≤ rank x then e :: x :: xs else x :: insertByRank rank e xs

/-- Sort the collection by ascending `rank` (insertion sort). -/
def sortByRank (rank : IndexEntry → Rat) : List IndexEntry → List IndexEntry
  | [] => []
  | x :: xs => insertByRank rank x (sortByRank rank xs)

/-- `collection.query(query_embeddings=[e], n_results=k)` followed by the
result formatting of server.py lines 287-294: the stored entries in
ascending distance order, at most `k` of them, as retrieval results. -/
def collectionQuery (idx : List IndexEntry) (rank : IndexEntry → Rat)
    (k : Nat) : List RetrievalResult :=
  ((sortByRank rank idx).take k).map (fun e => ⟨e.text, e.md, rank e⟩)

/-- Result of the `/api/search` route: the formatted results (`none` for the
missing-query validation error), and how often the embedder and the
collection query were invoked while serving the request. -/
structure SearchOut where
  results : Option (List RetrievalResult)
  embedCalls : Nat
  queryCalls : Nat
deriving DecidableEq, Repr

/-- `search_documents` (server.py lines 266-303): reject an empty query
string; otherwise embed the query (one embedder call), query the collection
(one index query), and format the results. There is no catalog emptiness
check on this path. -/
def search_documents (st : ServerState) (rank : List Char → IndexEntry → Rat)
    (query : List Char) (top_k : Nat) : SearchOut :=
  if query.isEmpty then ⟨none, 0, 0⟩
  else ⟨some (collectionQuery st.collection (rank query) top_k), 1, 1⟩

/-- One context block of the chat route (server.py line 343):
`f"[Source: {metadata['filename']}]\n{doc_text}"`. -/
def blockOf (r : RetrievalResult) : List Char :=
  "[Source: ".data ++ r.metadata.filename.data ++ "]\n".data ++ r.text

/-- `"\n\n".join(parts)` (server.py line 345). -/
def joinBlocks : List (List Char) → List Char
  | [] => []
  | [b] => b
  | b :: bs => b ++ "\n\n".data ++ joinBlocks bs

/-- The ContextComposer of the spec, as implemented by server.py lines
339-345: `none` when there are no retrieval results (the caller then keeps
the base system prompt), otherwise the source-attributed blocks joined by a
blank line. -/
def composeContext (results : List RetrievalResult) : Option (List Char) :=
  if results.isEmpty then none
  else some (joinBlocks (results.map blockOf))

/-- The base system prompt (server.py line 323). -/
def basePrompt : List Char :=
  "You are a helpful research assistant. Help users with their research questions, summarize information, explain concepts clearly, and assist with learning. Be concise but thorough.".data

/-- The instructional framing placed before the composed context in the RAG
system prompt (server.py lines 348-353). -/
def ragPromptPre : List Char :=
  "You are a helpful research assistant. You have access to the user\x27s uploaded documents.\n\nUse the following context from the user\x27s documents to answer their question. If the context is relevant, cite the source filename. If the context doesn\x27t contain relevant information, you can use your general knowledge but mention that it\x27s not from their documents.\n\nCONTEXT FROM DOCUMENTS:\n".data

/-- The instructional framing placed after the composed context
(server.py line 355). -/
def ragPromptPost : List Char :=
  "\n\nAnswer the user\x27s question based on this context.".data

/-- The full RAG system prompt built around a composed context
(server.py lines 348-355). -/
def ragWrap (ctx : List Char) : List Char :=
  ragPromptPre ++ ctx ++ ragPromptPost

/-- The system prompt the chat route ends up with for a given retrieval
result list: the base instructions when composition yields nothing
(server.py lines 323 and 339), the framed context otherwise (line 348). -/
def systemPromptFor (results : List RetrievalResult) : List Char :=
  match composeContext results with
  | none => basePrompt
  | some ctx => ragWrap ctx

/-- One chat message: `{'role': ..., 'content': ...}`. -/
structure Msg where
  role : String
  content : List Char
deriving DecidableEq, Repr

/-- Result of the `/api/chat` route up to the external completion call:
the system prompt handed to the completion service (`none` for the
no-messages validation error), the number of embedder and collection-query
invocations, and the query text that was embedded for retrieval, when any. -/
structure ChatOut where
  system_prompt : Option (List Char)
  embedCalls : Nat
  queryCalls : Nat
  queried : Option (List Char)
deriving DecidableEq, Repr

/-- `chat` (server.py lines 305-370), up to the external completion call:
reject an empty message list; find the last user-role message
(`next((m for m in reversed(messages) if m['role'] == 'user'), None)`,
line 320); when RAG is enabled, a user message exists and `documents_db` is
non-empty, embed that message's content, query the collection with
`n_results=3`, and build the system prompt from the results; in every other
case keep the base system prompt and call neither the embedder nor the
collection. -/
def chat (st : ServerState) (rank : List Char → IndexEntry → Rat)
    (messages : List Msg) (use_rag : Bool) : ChatOut :=
  if messages.isEmpty then ⟨none, 0, 0, none⟩
  else
    match use_rag, messages.reverse.find? (fun m => m.role == "user") with
    | true, some m =>
      if 0 < st.documents_db.length then
        ⟨some (systemPromptFor (collectionQuery st.collection (rank m.content) 3)),
          1, 1, some m.content⟩
      else ⟨some basePrompt, 0, 0, none⟩
    | _, _ => ⟨some basePrompt, 0, 0, none⟩

/-- The ranking function used in concrete traces: all entries at distance
zero (any fixed value does; distances never influence the claims below). -/
def rank0 : List Char → IndexEntry → Rat := fun _ _ => 0

/-- The empty server state: fresh process, nothing uploaded. -/
def st0 : ServerState := ⟨[], [], []⟩

/-- Trace: upload a one-chunk document `"a"` (it receives id 1). -/
def stA : ServerState := (upload_document st0 "a".data "a.txt" "uploads/a.txt").2

/-- Trace: then upload a one-chunk document `"b"` (it receives id 2). -/
def stB : ServerState := (upload_document stA "b".data "b.txt" "uploads/b.txt").2

/-- Trace: then delete document 1 (the collection delete succeeds). -/
def stC : ServerState := (delete_document stB 1 true).2

/-- A 1001-character text: with `CHUNK_SIZE = 1000`, `CHUNK_OVERLAP = 200`
it chunks into two chunks, `(0,1000)` and `(800,1001)`. -/
def bigText : List Char := List.replicate 1001 'x'

/-- Trace: then upload the two-chunk document `bigText`. The code assigns it
`doc_id = len(documents_db) + 1 = 2` (server.py line 161), although the
document uploaded second still holds id 2. -/
def stD : ServerState := (upload_document stC bigText "c.txt" "uploads/c.txt").2

set_option maxRecDepth 10000 in
/-- Claim C1 (code bug): after uploading two documents, deleting document 1
and uploading a third document, `doc_id = len(documents_db) + 1` assigns the
third document id 2 while the second document, still live, also holds id 2:
the catalog's id list is `[2, 2]`, so ids are neither unique nor never
reused. -/
theorem doc_ids_reused :
    stD.documents_db.map (fun d => d.id) = [2, 2] ∧
    ¬ (stD.documents_db.map (fun d => d.id)).Nodup := by
  exact ⟨by decide, by decide⟩

set_option maxRecDepth 10000 in
/-- Claim C2 (code bug): in state `stD` two live documents share id 2 (one
with 1 chunk, one with 2). `delete_document 2` then returns success, yet a
subsequent collection query still returns the orphaned chunk
`doc_2_chunk_1`, whose metadata `doc_id` is the deleted id 2: deletion
recomputed the chunk ids from the first matching record's `chunk_count` but
removed every record with that id from the catalog. -/
theorem delete_then_query_returns_deleted_id :
    (delete_document stD 2 true).1 = DeleteOutcome.ok ∧
    ((collectionQuery (delete_document stD 2 true).2.collection (rank0 []) 5).map
      (fun r => r.metadata.doc_id)) = [2] := by
  exact ⟨by decide, by decide⟩

set_option maxRecDepth 10000 in
/-- Claim C7 (code bug): deleting document 1 while the collection delete
fails still returns success (the `except` on server.py lines 250-251 only
prints), removes the document from the catalog, and leaves its embedding in
the collection: an orphaned entry with `doc_id = 1` and an error the caller
never sees. -/
theorem delete_swallows_index_error :
    (delete_document stA 1 false).1 = DeleteOutcome.ok ∧
    (delete_document stA 1 false).2.documents_db = [] ∧
    ((delete_document stA 1 false).2.collection.map (fun e => e.md.doc_id)) = [1] := by
  exact ⟨by decide, by decide, by decide⟩

/-- Claim C8: deleting an id that no catalog record holds fails with
not-found and leaves the entire state (catalog, collection, files) exactly
as it was, whether or not the external index delete would have succeeded. -/
theorem delete_document_not_found (st : ServerState) (doc_id : Nat)
    (indexDeleteOk : Bool) (h : ∀ d ∈ st.documents_db, d.id ≠ doc_id) :
    delete_document st doc_id indexDeleteOk = (DeleteOutcome.notFound, st) := by
  unfold delete_document
  have hfind : st.documents_db.find? (fun d => d.id == doc_id) = none := by
    rw [List.find?_eq_none]
    intro d hd
    simpa using h d hd
  rw [hfind]

set_option maxRecDepth 10000 in
/-- Witness for C8: deleting id 5 from the one-document state `stA`. -/
theorem delete_document_not_found_witness :
    (∀ d ∈ stA.documents_db, d.id ≠ 5) ∧
    delete_document stA 5 true = (DeleteOutcome.notFound, stA) :=
  ⟨by decide, delete_document_not_found stA 5 true (by decide)⟩

/-- Claim C3 counterexample: against the empty catalog (and empty
collection), `search_documents` with query `"x"` does return an empty result
list, but it invokes the embedder once and queries the collection once —
there is no catalog-emptiness short circuit on the search path
(server.py lines 266-299 never consult `documents_db`). -/
theorem search_empty_catalog_calls_embedder :
    st0.documents_db = [] ∧
    (search_documents st0 rank0 "x".data 3).results = some [] ∧
    (search_documents st0 rank0 "x".data 3).embedCalls ≠ 0 ∧
    (search_documents st0 rank0 "x".data 3).queryCalls ≠ 0 := by
  exact ⟨by decide, by decide, by decide, by decide⟩

/-- Claim C3 amended: against an empty catalog and collection,
`search_documents` with a non-empty query returns an empty result sequence,
but only after one embedder call and one collection query; the
empty-catalog short circuit exists only on the chat path, which with an
empty catalog calls neither the embedder nor the collection. -/
theorem search_empty_returns_empty_and_chat_short_circuits :
    (∀ (rank : List Char → IndexEntry → Rat) (q : List Char) (k : Nat),
      q.isEmpty = false →
        search_documents ⟨[], [], []⟩ rank q k = ⟨some [], 1, 1⟩) ∧
    (∀ (st : ServerState) (rank : List Char → IndexEntry → Rat)
        (msgs : List Msg) (use_rag : Bool), st.documents_db = [] →
      (chat st rank msgs use_rag).embedCalls = 0 ∧
      (chat st rank msgs use_rag).queryCalls = 0) := by
  constructor
  · intro rank q k hq
    unfold search_documents
    rw [hq]
    simp [collectionQuery, sortByRank]
  · intro st rank msgs use_rag hdb
    unfold chat
    by_cases hme : msgs.isEmpty
    · rw [if_pos hme]
      exact ⟨rfl, rfl⟩
    · rw [if_neg hme]
      have hlen : ¬ 0 < st.documents_db.length := by
        rw [hdb]
        exact Nat.lt_irrefl 0
      split
      · rw [if_neg hlen]
        exact ⟨rfl, rfl⟩
      · exact ⟨rfl, rfl⟩

/-- Witness for the amended C3: query `"x"`, `k = 3` on the empty state, and
a one-message chat against the empty catalog. -/
theorem search_empty_and_chat_witness :
    ("x".data.isEmpty = false ∧
      search_documents ⟨[], [], []⟩ rank0 "x".data 3 = ⟨some [], 1, 1⟩) ∧
    (st0.documents_db = [] ∧
      (chat st0 rank0 [⟨"user", "q".data⟩] true).embedCalls = 0 ∧
      (chat st0 rank0 [⟨"user", "q".data⟩] true).queryCalls = 0) :=
  ⟨⟨by decide,
      search_empty_returns_empty_and_chat_short_circuits.1 rank0 "x".data 3 (by decide)⟩,
    ⟨by decide,
      search_empty_returns_empty_and_chat_short_circuits.2 st0 rank0
        [⟨"user", "q".data⟩] true (by decide)⟩⟩

/-- Every block of a `"\n\n"`-join occurs contiguously in the joined text. -/
lemma joinBlocks_contains (b : List Char) :
    ∀ bs : List (List Char), b ∈ bs →
      ∃ pre post, joinBlocks bs = pre ++ b ++ post := by
  intro bs
  induction bs with
  | nil => intro hb; cases hb
  | cons x xs ih =>
    intro hb
    cases xs with
    | nil =>
      have hbx : b = x := by simpa using hb
      subst hbx
      exact ⟨[], [], by simp [joinBlocks]⟩
    | cons y ys =>
      rcases List.mem_cons.mp hb with hbx | hbtail
      · subst hbx
        exact ⟨[], "\n\n".data ++ joinBlocks (y :: ys), by simp [joinBlocks]⟩
      · obtain ⟨pre, post, hpp⟩ := ih hbtail
        exact ⟨x ++ "\n\n".data ++ pre, post, by simp [joinBlocks, hpp]⟩

/-- Claim C9: `composeContext` of no retrieval results is `none` and the
chat route then keeps the base system instructions unchanged; for a
non-empty result list it returns the `"\n\n"`-joined source-attributed
blocks, and for every result in the list the block
`"[Source: " ++ filename ++ "]\n" ++ text` occurs contiguously in the
composed context. -/
theorem compose_context_spec :
    composeContext [] = none ∧
    systemPromptFor [] = basePrompt ∧
    (∀ (rs : List RetrievalResult) (r : RetrievalResult), r ∈ rs →
      composeContext rs = some (joinBlocks (rs.map blockOf)) ∧
      ∃ pre post, joinBlocks (rs.map blockOf) = pre ++ blockOf r ++ post) := by
  refine ⟨rfl, rfl, ?_⟩
  intro rs r hr
  have hne : rs.isEmpty = false :=
    List.isEmpty_eq_false.mpr (List.ne_nil_of_mem hr)
  constructor
  · unfold composeContext
    rw [hne]
    rfl
  · exact joinBlocks_contains (blockOf r) (rs.map blockOf)
      (List.mem_map_of_mem blockOf hr)

/-- A concrete retrieval result used to witness C9. -/
def r0 : RetrievalResult := ⟨"t".data, ⟨1, "f.txt", 0, 0, 1⟩, 0⟩

/-- Witness for C9 at the singleton result list `[r0]`. -/
theorem compose_context_spec_witness :
    r0 ∈ [r0] ∧
    (composeContext [r0] = some (joinBlocks ([r0].map blockOf)) ∧
      ∃ pre post, joinBlocks ([r0].map blockOf) = pre ++ blockOf r0 ++ post) :=
  ⟨List.mem_singleton.mpr rfl, compose_context_spec.2.2 [r0] r0 (List.mem_singleton.mpr rfl)⟩

/-- The first hit of `find?` on a reversed list splits the list into a
prefix, the hit, and a suffix in which nothing satisfies the predicate:
that is, the hit is the last satisfying element. -/
lemma find?_reverse_split {α : Type} (p : α → Bool) (l : List α) (m : α)
    (h : l.reverse.find? p = some m) :
    ∃ pre post, l = pre ++ m :: post ∧ p m = true ∧ ∀ x ∈ post, p x = false := by
  induction l using List.reverseRecOn with
  | nil => simp at h
  | append_singleton xs a ih =>
    rw [List.reverse_concat] at h
    by_cases hpa : p a = true
    · rw [List.find?_cons_of_pos _ hpa] at h
      have hma : a = m := by
        injection h
      subst hma
      exact ⟨xs, [], rfl, hpa, fun x hx => absurd hx (List.not_mem_nil x)⟩
    · rw [List.find?_cons_of_neg _ hpa] at h
      obtain ⟨pre, post, hsplit, hpm, hpost⟩ := ih h
      refine ⟨pre, post ++ [a], ?_, hpm, ?_⟩
      · rw [hsplit]
        simp
      · intro x hx
        rcases List.mem_append.mp hx with hx1 | hx2
        · exact hpost x hx1
        · have hxa : x = a := by simpa using hx2
          subst hxa
          cases hpb : p x with
          | false => rfl
          | true => exact absurd hpb hpa

/-- Claim C10: with RAG enabled and a non-empty catalog, whenever the chat
route embeds a retrieval query, that query is the content of the most recent
user-role message (some user message precedes it in the list order and no
user-role message follows it); and when the (non-empty) message list holds
no user-role message, the route calls neither the embedder nor the
collection and hands the base system prompt to the completion service. -/
theorem chat_query_is_last_user_message
    (st : ServerState) (rank : List Char → IndexEntry → Rat)
    (msgs : List Msg) (q : List Char) (hdb : st.documents_db ≠ []) :
    ((chat st rank msgs true).queried = some q →
      ∃ pre m post, msgs = pre ++ m :: post ∧ m.role = "user" ∧ m.content = q ∧
        ∀ x ∈ post, x.role ≠ "user") ∧
    ((msgs ≠ [] ∧ ∀ m ∈ msgs, m.role ≠ "user") →
      chat st rank msgs true = ⟨some basePrompt, 0, 0, none⟩) := by
  have hlen : 0 < st.documents_db.length := List.length_pos.mpr hdb
  constructor
  · intro hq
    unfold chat at hq
    by_cases hme : msgs.isEmpty
    · rw [if_pos hme] at hq
      exact Option.noConfusion hq
    · rw [if_neg hme] at hq
      split at hq
      next m htrue hf =>
        rw [if_pos hlen] at hq
        have hqm : m.content = q := Option.some.inj hq
        obtain ⟨pre, post, hsplit, hpm, hpost⟩ :=
          find?_reverse_split (fun m => m.role == "user") msgs m hf
        refine ⟨pre, m, post, hsplit, by simpa using hpm, hqm, ?_⟩
        intro x hx
        have := hpost x hx
        simpa using this
      next =>
        exact Option.noConfusion hq
  · rintro ⟨hne, hnouser⟩
    have hme : msgs.isEmpty = false := List.isEmpty_eq_false.mpr hne
    have hf : msgs.reverse.find? (fun m => m.role == "user") = none := by
      rw [List.find?_eq_none]
      intro x hx
      have := hnouser x (List.mem_reverse.mp hx)
      simpa using this
    unfold chat
    rw [if_neg (by rw [hme]; exact Bool.false_ne_true), hf]

set_option maxRecDepth 10000 in
/-- Witness for C10: the one-document state `stA` and a message list whose
only message has role `assistant`. -/
theorem chat_query_is_last_user_message_witness :
    stA.documents_db ≠ [] ∧
    (((chat stA rank0 [⟨"assistant", "hi".data⟩] true).queried = some "q".data →
      ∃ pre m post, [(⟨"assistant", "hi".data⟩ : Msg)] = pre ++ m :: post ∧
        m.role = "user" ∧ m.content = "q".data ∧ ∀ x ∈ post, x.role ≠ "user") ∧
    (([(⟨"assistant", "hi".data⟩ : Msg)] ≠ [] ∧
        ∀ m ∈ [(⟨"assistant", "hi".data⟩ : Msg)], m.role ≠ "user") →
      chat stA rank0 [⟨"assistant", "hi".data⟩] true = ⟨some basePrompt, 0, 0, none⟩)) :=
  ⟨by decide,
    chat_query_is_last_user_message stA rank0 [⟨"assistant", "hi".data⟩] "q".data (by decide)⟩
